import Mathlib

/-!
A shallow embedding of litesdcard's SD-card PHY (`src/litesdcard/phy.py`)
together with theorems about its state machines.

Modelling conventions:
* Every Migen FSM becomes an explicit state structure plus a step function
  executed once per `sd`-domain clock cycle.  `NextValue`/`NextState`
  assignments become the returned next state, combinational `eq` assignments
  become the returned per-cycle output record (unassigned outputs default
  to `0`/`false`, as in Migen).  A later assignment in the same `act` block
  overrides an earlier one, which is reflected in the order of the `if`s.
* A `w`-bit signal is a `Nat` truncated with `% 2^w` at the points where the
  hardware truncates (register updates and compared values), matching the
  widths of the signals in the netlist.
* Stream endpoints (`valid`/`ready`/`data`/`last`) are passed to the step
  functions as explicit per-cycle inputs; the clock-domain-crossing buffers
  are order-preserving and blocking, so a request or byte queue is modelled
  as a list whose head is presented until the machine asserts `ready`.
-/

/-- Result status of the command/data readers.  The numeric encodings live in
`litesdcard/common.py`, which is not part of the PHY file; modelled from the
spec: the status tag is `OK` or `TIMEOUT`. -/
inductive SDStatus where
  | ok
  | timeout
deriving DecidableEq, Repr

/-- One item of a reader result stream: an 8-bit payload with `status` and
`last` flags (`SDPHYCMDR.source` / `SDPHYDATAR.source`). -/
structure SdItem where
  data   : Nat
  status : SDStatus
  last   : Bool
deriving DecidableEq, Repr

/-- MSB-first bit serialization of one byte, as driven by `SDPHYCMDW.WRITE`
(`Case(count, {i: pads_out.cmd.o.eq(sink.data[8-1-i])})`): the bit driven at
`count = i` is bit `7 - i` of the byte. -/
def bitsMSB (d : Nat) : List Nat :=
  [d / 128 % 2, d / 64 % 2, d / 32 % 2, d / 16 % 2, d / 8 % 2, d / 4 % 2,
   d / 2 % 2, d % 2]

/-- Modelled from the spec: the `litex` `stream.Converter(1, 8, reverse=True)`
used by `SDPHYR` packs successive accepted 1-bit samples into bytes,
most-significant-bit first (the first accepted sample becomes bit 7); an
incomplete trailing group is never emitted. -/
def pack8 : List Nat → List Nat
  | b7 :: b6 :: b5 :: b4 :: b3 :: b2 :: b1 :: b0 :: rest =>
      (b7 * 128 + b6 * 64 + b5 * 32 + b4 * 16 + b3 * 8 + b2 * 4 + b1 * 2 + b0)
        :: pack8 rest
  | _ => []

/-! ### Command writer `SDPHYCMDW` (phy.py lines 129-178) -/

/-- FSM states of `SDPHYCMDW`. -/
inductive CmdwFsm where
  | idle
  | write
  | clk8
deriving DecidableEq, Repr

/-- Registers of `SDPHYCMDW`: the FSM state and the 8-bit counter `count`. -/
structure CmdwState where
  fsm   : CmdwFsm
  count : Nat
deriving DecidableEq, Repr

/-- Per-cycle outputs of `SDPHYCMDW`: the driven pads (`clk`, `cmd.oe`,
`cmd.o`), the sink handshake `ready` and the `done` flag. -/
structure CmdwOut where
  clk   : Bool
  oe    : Bool
  o     : Nat
  ready : Bool
  done  : Bool
deriving DecidableEq, Repr

/-- One `sd`-clock cycle of `SDPHYCMDW`.  `valid`, `data`, `last` are the
fields of the (CDC-crossed) byte sink presented this cycle.

* `IDLE`: `count` is reset; a pending byte moves the FSM to `WRITE`,
  otherwise `done` is asserted.
* `WRITE`: drives `cmd.oe` and bit `7 - count` of the byte; at `count = 7`
  a `last` byte moves to `CLK8`, otherwise the byte is consumed.
* `CLK8`: drives `cmd` high; leaves (consuming the byte) when `count = 7`.
  `count` is *not* reset on the `WRITE → CLK8` transition. -/
def cmdwStep (s : CmdwState) (valid : Bool) (data : Nat) (last : Bool) :
    CmdwState × CmdwOut :=
  match s.fsm with
  | .idle =>
      (⟨if valid then .write else .idle, 0⟩,
       ⟨false, false, 0, false, !valid⟩)
  | .write =>
      let o := if s.count < 8 then data / 2 ^ (7 - s.count) % 2 else 0
      if s.count = 7 then
        if last then
          (⟨.clk8, (s.count + 1) % 256⟩, ⟨true, true, o, false, false⟩)
        else
          (⟨.idle, (s.count + 1) % 256⟩, ⟨true, true, o, true, false⟩)
      else
        (⟨.write, (s.count + 1) % 256⟩, ⟨true, true, o, false, false⟩)
  | .clk8 =>
      if s.count = 7 then
        (⟨.idle, (s.count + 1) % 256⟩, ⟨true, true, 1, true, false⟩)
      else
        (⟨.clk8, (s.count + 1) % 256⟩, ⟨true, true, 1, false, false⟩)

/-- Drive `SDPHYCMDW` from a queue of `(byte, last)` items: each cycle the
head of the queue is presented on the sink (held until `ready`, as the
one-slot CDC buffer does); the trace of per-cycle outputs is returned.
Observation stops when the queue has been fully consumed or `fuel` runs
out. -/
def cmdwRun (fuel : Nat) (s : CmdwState) (q : List (Nat × Bool)) :
    List CmdwOut :=
  match fuel, q with
  | 0, _ => []
  | _ + 1, [] => []
  | fuel + 1, (d, l) :: q' =>
      let so := cmdwStep s true d l
      so.2 :: cmdwRun fuel so.1 (if so.2.ready then q' else (d, l) :: q')

/-- The bits actually driven on the command line: the `cmd.o` values of the
cycles in which `cmd.oe` is asserted. -/
def drivenBits : List CmdwOut → List Nat
  | [] => []
  | o :: rest => (if o.oe then [o.o] else []) ++ drivenBits rest

/-- The command-line bits driven for a payload whose bytes are all sent with
`last = 0` (9 cycles per byte: one `IDLE` hop plus 8 `WRITE` cycles). -/
def cmdwDriven (payload : List Nat) : List Nat :=
  drivenBits (cmdwRun (9 * payload.length) ⟨.idle, 0⟩
    (payload.map fun d => (d, false)))

/-! ### Command reader `SDPHYCMDR` (phy.py lines 182-269) -/

/-- FSM states of `SDPHYCMDR`. -/
inductive CmdrFsm where
  | idle
  | wait
  | cmd
  | clk8
  | timeout
deriving DecidableEq, Repr

/-- Registers of `SDPHYCMDR`: FSM state, the 8-bit byte counter `count`, the
32-bit down-counter `timeout` (called `timer` here) and the reset line of the
embedded `SDPHYR` (`cmdr.reset`, driven by `NextValue`). -/
structure CmdrState where
  fsm    : CmdrFsm
  count  : Nat
  timer  : Nat
  rreset : Bool
deriving DecidableEq, Repr

/-- Per-cycle outputs of `SDPHYCMDR`. -/
structure CmdrOut where
  clk       : Bool
  cmdOe     : Bool
  cmdO      : Nat
  srcValid  : Bool
  srcData   : Nat
  srcStatus : SDStatus
  srcLast   : Bool
  sinkReady : Bool
  rdReady   : Bool
deriving DecidableEq, Repr

/-- One `sd`-clock cycle of `SDPHYCMDR` with timeout reload value `T0`
(`int(cmd_timeout*sys_clk_freq)`).  Inputs: the request sink
(`sinkValid`/`sinkLength`/`sinkLast`), `cmdwDone` (the command writer's
`done`), the embedded reader's byte stream (`rdValid`/`rdData`) and the
downstream `srcReady`.

* `IDLE`: `count := 0` and the timeout is reloaded every cycle; a pending
  request with the writer idle arms the embedded reader and moves to `WAIT`.
* `WAIT`: decrements the timeout; a first reader byte moves to `CMD`; the
  later `If(timeout == 0, ...)` overrides this, consuming the request and
  moving to `TIMEOUT`.
* `CMD`: forwards reader bytes with status `OK`; `source.last` compares
  `count` with `sink.length - 1` (8-bit two's-complement wrap, so length `l`
  gives threshold `(l + 255) % 256`); on the accepted last byte the request
  is consumed and the FSM moves to `CLK8` (with `count := 0`) when the
  request was `last`, else to `IDLE`; `If(timeout == 0, ...)` again
  overrides.
* `CLK8`: drives `cmd` high for 8 cycles (`count` was reset on entry).
* `TIMEOUT`: holds a single `status=TIMEOUT, last=1` result until accepted. -/
def cmdrStep (T0 : Nat) (s : CmdrState) (sinkValid : Bool) (sinkLength : Nat)
    (sinkLast : Bool) (cmdwDone : Bool) (rdValid : Bool) (rdData : Nat)
    (srcReady : Bool) : CmdrState × CmdrOut :=
  match s.fsm with
  | .idle =>
      (⟨if sinkValid && cmdwDone then .wait else .idle, 0, T0,
        if sinkValid && cmdwDone then true else s.rreset⟩,
       ⟨false, false, 0, false, 0, .ok, false, false, false⟩)
  | .wait =>
      (⟨if s.timer = 0 then .timeout else if rdValid then .cmd else .wait,
        s.count, if s.timer = 0 then 2 ^ 32 - 1 else s.timer - 1, false⟩,
       ⟨true, false, 0, false, 0, .ok, false, s.timer = 0, false⟩)
  | .cmd =>
      let lastFlag := s.count = (sinkLength + 255) % 256
      let accept := rdValid && srcReady
      (⟨if s.timer = 0 then .timeout
        else if accept && lastFlag then (if sinkLast then .clk8 else .idle)
        else .cmd,
        if accept then (if lastFlag && sinkLast then 0 else (s.count + 1) % 256)
        else s.count,
        if s.timer = 0 then 2 ^ 32 - 1 else s.timer - 1, s.rreset⟩,
       ⟨true, false, 0, rdValid, rdData, .ok, lastFlag,
        (accept && lastFlag) || s.timer = 0, accept⟩)
  | .clk8 =>
      (⟨if s.count = 7 then .idle else .clk8, (s.count + 1) % 256, s.timer,
        s.rreset⟩,
       ⟨true, true, 1, false, 0, .ok, false, false, false⟩)
  | .timeout =>
      (⟨if srcReady then .idle else .timeout, s.count, s.timer, s.rreset⟩,
       ⟨false, false, 0, true, 0, .timeout, true, false, false⟩)

/-- Drive `SDPHYCMDR` through one transaction: `req` is the pending request
(`length`, `last`), held on the sink until consumed; `supply` is the byte
stream produced by the embedded `SDPHYR` (its head is presented with
`valid` until the machine takes it); the downstream is always ready and the
command writer is reported `done`.  Returns emitted result items and the
state at which observation stopped — on return to `IDLE` with the request
consumed, or on entry to `CLK8`. -/
def cmdrRun (T0 : Nat) :
    Nat → CmdrState → Option (Nat × Bool) → List Nat → List SdItem × CmdrState
  | 0, s, _, _ => ([], s)
  | fuel + 1, s, req, supply =>
      if (s.fsm = .idle ∧ req = none) ∨ s.fsm = .clk8 then ([], s)
      else
        let r := req.getD (0, false)
        let so := cmdrStep T0 s req.isSome r.1 r.2 true (!supply.isEmpty)
          supply.headI true
        let req' := if so.2.sinkReady then none else req
        let supply' := if so.2.rdReady then supply.tail else supply
        let rest := cmdrRun T0 fuel so.1 req' supply'
        ((if so.2.srcValid then [⟨so.2.srcData, so.2.srcStatus, so.2.srcLast⟩]
          else []) ++ rest.1, rest.2)

/-- The result items an OK transfer produces: one item per supplied byte,
status `OK`, `last` set on the byte whose (width-truncated) index equals the
threshold `m`; `M` is the modulus of the byte counter (`256` for the command
reader, `1024` for the data reader). -/
def okItemsMod (M m : Nat) : Nat → List Nat → List SdItem
  | _, [] => []
  | c, b :: bs =>
      if c = m then [⟨b, .ok, true⟩]
      else ⟨b, .ok, false⟩ :: okItemsMod M m ((c + 1) % M) bs

/-- The byte stream recovered by a 1-bit `SDPHYR` with `skip_start_bit=False`
from a command-line bit trace: samples before the first low (start) bit are
ignored (`run` not yet latched), every sample from the start bit on is packed
MSB-first into bytes. -/
def sdphyrBytes (bits : List Nat) : List Nat :=
  pack8 (bits.dropWhile fun b => b != 0)

/-! ### Line clock generator `SDPHYClocker` (phy.py lines 37-57) -/

/-- Combinational clock selection of `SDPHYClocker`: a `Case` on the 8-bit
`divider` CSR maps each power of two `2^i` (`i = 1..7`) to counter bit
`i - 1` (`divider[i-1]`, here `cnt / 2^(i-1) % 2`); every other value falls
to the default, counter bit 0. -/
def clockerClk (storage cnt : Nat) : Nat :=
  if storage = 2 then cnt / 1 % 2
  else if storage = 4 then cnt / 2 % 2
  else if storage = 8 then cnt / 4 % 2
  else if storage = 16 then cnt / 8 % 2
  else if storage = 32 then cnt / 16 % 2
  else if storage = 64 then cnt / 32 % 2
  else if storage = 128 then cnt / 64 % 2
  else cnt % 2

/-- The `sd` clock waveform over time: the free-running 8-bit counter
(`self.sync += divider.eq(divider + 1)`) holds `t % 256` at cycle `t`. -/
def clockerWave (storage t : Nat) : Nat :=
  clockerClk storage (t % 256)

/-! ### Bit stream reader `SDPHYR` (phy.py lines 61-89)

The start/`run` latch is translated exactly; the `litex` converter and
one-deep buffer (library components outside this file) are modelled from the
spec as counting functions: a byte is complete once `8 / width` samples have
been accepted, and the one-deep output buffer makes a completed byte visible
one cycle later. -/

/-- `SDPHYR`'s start condition: the sampled `width`-bit line slice is
all-zero (`start.eq(pads_in_data == 0)`). -/
def sdphyrStartCond (w sample : Nat) : Bool :=
  sample % 2 ^ w == 0

/-- Number of samples accepted by the converter while processing the given
sample list, starting from `run` latch state `run`: per cycle the latch
becomes `start | run` (`self.sync.sd += run.eq(start | run)`), and the
converter input is valid when `run` (if `skip_start_bit`) or `start | run`
(otherwise). -/
def sdphyrAcceptedAux (w : Nat) (skip run : Bool) : List Nat → Nat
  | [] => 0
  | a :: rest =>
      let st := run || sdphyrStartCond w a
      (if (if skip then run else st) then 1 else 0) +
        sdphyrAcceptedAux w skip st rest

/-- Samples accepted from reset (latch cleared). -/
def sdphyrAccepted (w : Nat) (skip : Bool) (l : List Nat) : Nat :=
  sdphyrAcceptedAux w skip false l

/-- Modelled from the spec: bytes completed by the converter strictly before
cycle `c` — every `8 / width` accepted `width`-bit samples complete one
8-bit byte. -/
def sdphyrCompleted (w : Nat) (skip : Bool) (samples : List Nat) (c : Nat) :
    Nat :=
  sdphyrAccepted w skip (samples.take c) * w / 8

/-- Modelled from the spec: bytes emitted by cycle `c` through the one-deep
output buffer — a byte completed at cycle `c - 1` is visible at cycle `c`. -/
def sdphyrEmitted (w : Nat) (skip : Bool) (samples : List Nat) (c : Nat) :
    Nat :=
  sdphyrCompleted w skip samples (c - 1)

/-! ### CRC response decoder `SDPHYCRCR` (phy.py lines 273-302) -/

/-- FSM states of `SDPHYCRCR`. -/
inductive CrcrFsm where
  | idle
  | waitCheck
deriving DecidableEq, Repr

/-- Registers of `SDPHYCRCR`: FSM state and the embedded reader's reset
line. -/
structure CrcrState where
  fsm    : CrcrFsm
  rreset : Bool
deriving DecidableEq, Repr

/-- Per-cycle outputs of `SDPHYCRCR`. -/
structure CrcrOut where
  valid   : Bool
  error   : Bool
  rdReady : Bool
deriving DecidableEq, Repr

/-- One `sd`-clock cycle of `SDPHYCRCR`.  `IDLE`: a `start` pulse arms
(resets) the embedded 1-bit reader and moves to `WAIT-CHECK`.  `WAIT-CHECK`:
on the reader's first value, `valid` is the comparison `data != 0b101` and
`error` is `data == 0b101`; the FSM rearms by returning to `IDLE`. -/
def crcrStep (s : CrcrState) (start rdValid : Bool) (rdData : Nat) :
    CrcrState × CrcrOut :=
  match s.fsm with
  | .idle =>
      (⟨if start then .waitCheck else .idle,
        if start then true else s.rreset⟩,
       ⟨false, false, false⟩)
  | .waitCheck =>
      if rdValid then
        (⟨.idle, false⟩,
         if rdData = 5 then ⟨false, true, true⟩ else ⟨true, false, true⟩)
      else
        (⟨.waitCheck, false⟩, ⟨false, false, true⟩)

/-- Drive `SDPHYCRCR` over a list of per-cycle inputs
`(start, rdValid, rdData)`, collecting the `(valid, error)` decision
pulses. -/
def crcrRun (s : CrcrState) : List (Bool × Bool × Nat) → List (Bool × Bool)
  | [] => []
  | (st, rv, rd) :: rest =>
      let so := crcrStep s st rv rd
      (if so.2.valid || so.2.error then [(so.2.valid, so.2.error)] else [])
        ++ crcrRun so.1 rest

/-! ### Data reader `SDPHYDATAR` (phy.py lines 382-470) -/

/-- FSM states of `SDPHYDATAR`. -/
inductive DatarFsm where
  | idle
  | wait
  | data
  | clk40
  | timeout
deriving DecidableEq, Repr

/-- Registers of `SDPHYDATAR`: FSM state, the 10-bit byte counter `count`,
the 32-bit `timeout` down-counter and the embedded reader's reset line. -/
structure DatarState where
  fsm    : DatarFsm
  count  : Nat
  timer  : Nat
  rreset : Bool
deriving DecidableEq, Repr

/-- Per-cycle outputs of `SDPHYDATAR` (it never drives `oe`; only `clk` and
the result stream). -/
structure DatarOut where
  clk       : Bool
  srcValid  : Bool
  srcData   : Nat
  srcStatus : SDStatus
  srcLast   : Bool
  sinkReady : Bool
  rdReady   : Bool
deriving DecidableEq, Repr

/-- One `sd`-clock cycle of `SDPHYDATAR` with timeout reload value `T0`
(`int(data_timeout*sys_clk_freq)`).

* `IDLE`: `count := 0`; a pending block request asserts `clk`, reloads the
  timeout, arms the embedded 4-bit reader and moves to `WAIT`.
* `WAIT`: as in the command reader (the duplicated
  `NextValue(timeout, timeout - 1)` decrements once).
* `DATA`: forwards reader bytes with status `OK`; `source.last` compares the
  10-bit `count` with `sink.block_length + 8 - 1`, i.e. with
  `(blockLength + 7) % 1024`; on the accepted last byte the request is
  consumed, moving to `CLK40` (with `count := 0`) when the request was
  `last`, else to `IDLE`; `If(timeout == 0, ...)` overrides.
* `CLK40`: drives 40 clock cycles, leaving when `count = 39`.
* `TIMEOUT`: holds a single `status=TIMEOUT, last=1` result until accepted. -/
def datarStep (T0 : Nat) (s : DatarState) (sinkValid : Bool)
    (blockLength : Nat) (sinkLast rdValid : Bool) (rdData : Nat)
    (srcReady : Bool) : DatarState × DatarOut :=
  match s.fsm with
  | .idle =>
      (⟨if sinkValid then .wait else .idle, 0,
        if sinkValid then T0 else s.timer,
        if sinkValid then true else s.rreset⟩,
       ⟨sinkValid, false, 0, .ok, false, false, false⟩)
  | .wait =>
      (⟨if s.timer = 0 then .timeout else if rdValid then .data else .wait,
        s.count, if s.timer = 0 then 2 ^ 32 - 1 else s.timer - 1, false⟩,
       ⟨true, false, 0, .ok, false, s.timer = 0, false⟩)
  | .data =>
      let lastFlag := s.count = (blockLength + 7) % 1024
      let accept := rdValid && srcReady
      (⟨if s.timer = 0 then .timeout
        else if accept && lastFlag then (if sinkLast then .clk40 else .idle)
        else .data,
        if accept then (if lastFlag && sinkLast then 0 else (s.count + 1) % 1024)
        else s.count,
        if s.timer = 0 then 2 ^ 32 - 1 else s.timer - 1, s.rreset⟩,
       ⟨true, rdValid, rdData, .ok, lastFlag,
        (accept && lastFlag) || s.timer = 0, accept⟩)
  | .clk40 =>
      (⟨if s.count = 39 then .idle else .clk40, (s.count + 1) % 1024, s.timer,
        s.rreset⟩,
       ⟨true, false, 0, .ok, false, false, false⟩)
  | .timeout =>
      (⟨if srcReady then .idle else .timeout, s.count, s.timer, s.rreset⟩,
       ⟨false, true, 0, .timeout, true, false, false⟩)

/-- Drive `SDPHYDATAR` through one transaction (request held until consumed,
reader byte stream `supply`, downstream always ready), returning the emitted
items and the state at which observation stopped — return to `IDLE` with the
request consumed, or entry to `CLK40`. -/
def datarRun (T0 : Nat) :
    Nat → DatarState → Option (Nat × Bool) → List Nat →
      List SdItem × DatarState
  | 0, s, _, _ => ([], s)
  | fuel + 1, s, req, supply =>
      if (s.fsm = .idle ∧ req = none) ∨ s.fsm = .clk40 then ([], s)
      else
        let r := req.getD (0, false)
        let so := datarStep T0 s req.isSome r.1 r.2 (!supply.isEmpty)
          supply.headI true
        let req' := if so.2.sinkReady then none else req
        let supply' := if so.2.rdReady then supply.tail else supply
        let rest := datarRun T0 fuel so.1 req' supply'
        ((if so.2.srcValid then [⟨so.2.srcData, so.2.srcStatus, so.2.srcLast⟩]
          else []) ++ rest.1, rest.2)

/-- Iterate `datarStep` for `n` cycles with a quiet environment (no request,
no reader data, downstream ready), collecting the outputs: used to observe
the trailing `CLK40` cycles. -/
def datarQuiet (T0 : Nat) : Nat → DatarState → DatarState × List DatarOut
  | 0, s => (s, [])
  | n + 1, s =>
      let so := datarStep T0 s false 0 false false 0 true
      let rest := datarQuiet T0 n so.1
      (rest.1, so.2 :: rest.2)

/-! ### Data writer `SDPHYDATAW` (phy.py lines 306-378) -/

/-- FSM states of `SDPHYDATAW`. -/
inductive DatawFsm where
  | idle
  | start
  | data
  | stop
  | response
deriving DecidableEq, Repr

/-- Registers of `SDPHYDATAW`: FSM state, the `wrstarted` flag and the 8-bit
counter used in `RESPONSE`. -/
structure DatawState where
  fsm       : DatawFsm
  wrstarted : Bool
  count     : Nat
deriving DecidableEq, Repr

/-- Per-cycle outputs of `SDPHYDATAW`. -/
structure DatawOut where
  clk      : Bool
  dataOe   : Bool
  dataO    : Nat
  ready    : Bool
  crcStart : Bool
deriving DecidableEq, Repr

/-- One `sd`-clock cycle of `SDPHYDATAW`.  Bytes are sent as two nibbles on
the 4-bit data bus: `IDLE` (with a pending byte) drives the high nibble when
`wrstarted`, or the all-zero start pattern otherwise; `START` drives the high
nibble; `DATA` drives the low nibble and consumes the byte (or moves to
`STOP` on `last`); `STOP` drives `0b1111` and pulses the CRC decoder's
`start`; `RESPONSE` waits 16 cycles then polls `data.i[0]` for busy
release. -/
def datawStep (s : DatawState) (valid : Bool) (dataIn : Nat) (last : Bool)
    (busyIn : Nat) : DatawState × DatawOut :=
  match s.fsm with
  | .idle =>
      if valid then
        if s.wrstarted then
          (⟨.data, s.wrstarted, s.count⟩,
           ⟨true, true, dataIn / 16 % 16, false, false⟩)
        else
          (⟨.start, s.wrstarted, s.count⟩, ⟨true, true, 0, false, false⟩)
      else
        (⟨.idle, s.wrstarted, s.count⟩, ⟨false, false, 0, false, false⟩)
  | .start =>
      (⟨.data, true, s.count⟩, ⟨true, true, dataIn / 16 % 16, false, false⟩)
  | .data =>
      if last then
        (⟨.stop, s.wrstarted, s.count⟩,
         ⟨true, true, dataIn % 16, false, false⟩)
      else
        (⟨.idle, s.wrstarted, s.count⟩,
         ⟨true, true, dataIn % 16, true, false⟩)
  | .stop =>
      (⟨.response, false, s.count⟩, ⟨true, true, 15, false, true⟩)
  | .response =>
      if s.count < 16 then
        (⟨.response, s.wrstarted, (s.count + 1) % 256⟩,
         ⟨true, false, 0, false, false⟩)
      else if busyIn % 2 = 1 then
        (⟨.idle, s.wrstarted, 0⟩, ⟨true, false, 0, true, false⟩)
      else
        (⟨.response, s.wrstarted, s.count⟩, ⟨true, false, 0, false, false⟩)

/-! ### Initialization sequencer `SDPHYInit` (phy.py lines 93-125) -/

/-- FSM states of `SDPHYInit` (`INITIALIZE` is called `busy` here). -/
inductive InitFsm where
  | idle
  | busy
deriving DecidableEq, Repr

/-- Registers of `SDPHYInit`: FSM state and the 8-bit cycle counter. -/
structure InitState where
  fsm   : InitFsm
  count : Nat
deriving DecidableEq, Repr

/-- One `sd`-clock cycle of `SDPHYInit`: on a trigger pulse it drives `clk`,
`cmd` high and all four data lines high for exactly 80 cycles.  The output is
the pads drive `(clk, cmd.oe, cmd.o, data.oe, data.o)`. -/
def initStep (s : InitState) (pulse : Bool) :
    InitState × (Bool × Bool × Nat × Bool × Nat) :=
  match s.fsm with
  | .idle =>
      (⟨if pulse then .busy else .idle, 0⟩, (false, false, 0, false, 0))
  | .busy =>
      (⟨if s.count = 79 then .idle else .busy, (s.count + 1) % 256⟩,
       (true, true, 1, true, 15))

/-! ### Shared pads and arbitration in `SDPHY` (phy.py lines 528-561) -/

/-- The per-cycle drive one submodule puts on the shared `sdpads` record:
`clk`, `cmd.oe`, `cmd.o`, `data.oe`, `data.o`. -/
structure PadsDrive where
  clk    : Bool
  cmdOe  : Bool
  cmdO   : Nat
  dataOe : Bool
  dataO  : Nat
deriving DecidableEq, Repr

/-- OR-reduction of the submodule drives onto the shared pads, mirroring the
five `reduce(or_, [m.pads_out... for m in [init, cmdw, cmdr, dataw, datar]])`
assignments. -/
def orDrive (ds : List PadsDrive) : PadsDrive :=
  ⟨ds.any (·.clk), ds.any (·.cmdOe), ds.foldr (fun d a => d.cmdO ||| a) 0,
   ds.any (·.dataOe), ds.foldr (fun d a => d.dataO ||| a) 0⟩

/-- `SDPHYInit`'s pads drive. -/
def initDrive (s : InitState) : PadsDrive :=
  let o := (initStep s false).2
  ⟨o.1, o.2.1, o.2.2.1, o.2.2.2.1, o.2.2.2.2⟩

/-- `SDPHYCMDW`'s pads drive (it never touches the data lines). -/
def cmdwDrive (s : CmdwState) (valid : Bool) (dataIn : Nat) : PadsDrive :=
  let o := (cmdwStep s valid dataIn false).2
  ⟨o.clk, o.oe, o.o, false, 0⟩

/-- `SDPHYCMDR`'s pads drive (a function of the state only). -/
def cmdrDrive (s : CmdrState) : PadsDrive :=
  let o := (cmdrStep 0 s false 0 false false false 0 false).2
  ⟨o.clk, o.cmdOe, o.cmdO, false, 0⟩

/-- `SDPHYDATAW`'s pads drive (it never touches the command line). -/
def datawDrive (s : DatawState) (valid : Bool) (dataIn : Nat) : PadsDrive :=
  let o := (datawStep s valid dataIn false 0).2
  ⟨o.clk, false, 0, o.dataOe, o.dataO⟩

/-- `SDPHYDATAR`'s pads drive: it only ever asserts `clk`. -/
def datarDrive (s : DatarState) (valid : Bool) : PadsDrive :=
  let o := (datarStep 0 s valid 0 false false 0 false).2
  ⟨o.clk, false, 0, false, 0⟩

/-- Combined registered state of the five pad-driving submodules of
`SDPHY`. -/
structure PhyState where
  ini : InitState
  cw  : CmdwState
  cr  : CmdrState
  dw  : DatawState
  dr  : DatarState
deriving DecidableEq, Repr

/-- Per-cycle external inputs to the five submodules (sink streams, the
initialization trigger, and the busy bit sampled on `data.i[0]`). -/
structure PhyIn where
  iniPulse  : Bool
  cwValid   : Bool
  cwData    : Nat
  cwLast    : Bool
  crValid   : Bool
  crLen     : Nat
  crLast    : Bool
  crRdValid : Bool
  crRdData  : Nat
  dwValid   : Bool
  dwData    : Nat
  dwLast    : Bool
  busy      : Nat
  drValid   : Bool
  drLen     : Nat
  drLast    : Bool
  drRdValid : Bool
  drRdData  : Nat
deriving DecidableEq, Repr

/-- One combined `sd`-clock cycle of the five submodules (the command
reader's `cmdw.done` input is wired to the command writer's `done` output,
as in `SDPHY`). -/
def phyStep (T0c T0d : Nat) (s : PhyState) (i : PhyIn) : PhyState :=
  ⟨(initStep s.ini i.iniPulse).1,
   (cmdwStep s.cw i.cwValid i.cwData i.cwLast).1,
   (cmdrStep T0c s.cr i.crValid i.crLen i.crLast
     (cmdwStep s.cw i.cwValid i.cwData i.cwLast).2.done i.crRdValid
     i.crRdData true).1,
   (datawStep s.dw i.dwValid i.dwData i.dwLast i.busy).1,
   (datarStep T0d s.dr i.drValid i.drLen i.drLast i.drRdValid i.drRdData
     true).1⟩

/-- Reset state of the combined machine (every FSM in its reset state, all
counters cleared; the timeout registers reset to their reload values). -/
def phyReset (T0c T0d : Nat) : PhyState :=
  ⟨⟨.idle, 0⟩, ⟨.idle, 0⟩, ⟨.idle, 0, T0c, false⟩, ⟨.idle, false, 0⟩,
   ⟨.idle, 0, T0d, false⟩⟩

/-- The drives of the four protocol engines named by the arbitration
invariant (command write, command read, data write, data read), in this
order. -/
def engineDrives (s : PhyState) (i : PhyIn) : List PadsDrive :=
  [cmdwDrive s.cw i.cwValid i.cwData, cmdrDrive s.cr,
   datawDrive s.dw i.dwValid i.dwData, datarDrive s.dr i.drValid]

/-- The shared pads value: OR-reduction over all five submodules. -/
def phyPads (s : PhyState) (i : PhyIn) : PadsDrive :=
  orDrive (initDrive s.ini :: engineDrives s i)

/-- How many of the four engines assert an output-enable this cycle. -/
def oeCount (s : PhyState) (i : PhyIn) : Nat :=
  ((engineDrives s i).map fun d => d.cmdOe || d.dataOe).count true

/-- An engine is "active" when it is mid-transaction (FSM not in `IDLE`) or
has a pending request on its sink this cycle. -/
def activeFlags (s : PhyState) (i : PhyIn) : List Bool :=
  [(s.cw.fsm != .idle) || i.cwValid, (s.cr.fsm != .idle) || i.crValid,
   (s.dw.fsm != .idle) || i.dwValid, (s.dr.fsm != .idle) || i.drValid]

/-- How many of the four engines are active this cycle. -/
def activeCount (s : PhyState) (i : PhyIn) : Nat :=
  (activeFlags s i).count true

/-- A quiet input cycle: no requests, no pulses, lines idle. -/
def quietIn : PhyIn :=
  ⟨false, false, 0, false, false, 0, false, false, 0, false, 0, false, 0,
   false, 0, false, false, 0⟩

/-- An input cycle in which the controller offers both a command byte and a
data byte at once. -/
def busyIn : PhyIn :=
  { quietIn with cwValid := true, dwValid := true }

/-! ### Theorems -/

/-- Serializing one non-`last` byte from `IDLE` takes one `IDLE` hop (nothing
driven) plus 8 `WRITE` cycles driving its MSB-first bits, returning to `IDLE`
with the byte consumed. -/
theorem cmdwRun_byte (f c d : Nat) (q : List (Nat × Bool)) :
    drivenBits (cmdwRun (f + 9) ⟨.idle, c⟩ ((d, false) :: q)) =
      bitsMSB d ++ drivenBits (cmdwRun f ⟨.idle, 8⟩ q) := by
  simp [cmdwRun, cmdwStep, drivenBits, bitsMSB]

/-- The command-line bits driven for a payload of non-`last` bytes are
exactly the MSB-first serializations of its bytes, in order. -/
theorem cmdwDriven_eq (payload : List Nat) :
    cmdwDriven payload = (payload.map bitsMSB).flatten := by
  unfold cmdwDriven
  suffices h : ∀ (l : List Nat) (c : Nat),
      drivenBits (cmdwRun (9 * l.length) ⟨.idle, c⟩ (l.map fun d => (d, false)))
        = (l.map bitsMSB).flatten by
    exact h payload 0
  intro l
  induction l with
  | nil => intro c; simp [cmdwRun, drivenBits]
  | cons d rest ih =>
      intro c
      have h9 : 9 * (d :: rest).length = 9 * rest.length + 9 := by
        simp [List.length_cons]; ring
      rw [h9]
      simp only [List.map_cons]
      rw [cmdwRun_byte]
      simp [ih]

set_option maxRecDepth 8000 in
/-- Claim C1 (code bug witnessed at the failing input): for the single byte
`0x55` marked `last`, `SDPHYCMDW` drives the byte's 8 MSB-first bits but then
holds the command line high for 256 trailing cycles, not 8 — `count` enters
`CLK8` at 8 (it is only reset in `IDLE`, which the `WRITE → CLK8` transition
bypasses), so `If(count == 8-1)` only fires after the 8-bit counter wraps. -/
theorem cmdw_clk8_trailer_bug :
    drivenBits (cmdwRun 300 ⟨.idle, 0⟩ [(85, true)]) =
      bitsMSB 85 ++ List.replicate 256 1 ∧
    ¬ drivenBits (cmdwRun 300 ⟨.idle, 0⟩ [(85, true)]) =
      bitsMSB 85 ++ List.replicate 8 1 := by
  constructor
  · decide
  · decide

/-- Once back in `IDLE` with the request consumed, the command reader emits
nothing further. -/
theorem cmdrRun_idle_none (T0 f : Nat) (s : CmdrState) (supply : List Nat)
    (h : s.fsm = .idle) :
    cmdrRun T0 f s none supply = ([], s) := by
  cases f <;> simp [cmdrRun, h]

/-- Unfolding: a `WAIT` cycle decrements the timeout and moves to `CMD` on a
pending reader byte, with `If(timeout == 0)` overriding into `TIMEOUT` and
consuming the request. -/
theorem cmdrRun_wait_step (T0 f c t : Nat) (r : Bool) (len : Nat) (lst : Bool)
    (supply : List Nat) :
    cmdrRun T0 (f + 1) ⟨.wait, c, t, r⟩ (some (len, lst)) supply =
      if t = 0 then
        cmdrRun T0 f ⟨.timeout, c, 2 ^ 32 - 1, false⟩ none supply
      else if supply.isEmpty then
        cmdrRun T0 f ⟨.wait, c, t - 1, false⟩ (some (len, lst)) supply
      else
        cmdrRun T0 f ⟨.cmd, c, t - 1, false⟩ (some (len, lst)) supply := by
  by_cases ht : t = 0 <;> by_cases hs : supply.isEmpty = true <;>
    simp [cmdrRun, cmdrStep, ht, hs]

/-- Unfolding: an `IDLE` cycle with a pending request (and the writer done)
reloads the timeout, arms the reader and moves to `WAIT`. -/
theorem cmdrRun_idle_accept (T0 f c t : Nat) (r : Bool)
    (x : Nat × Bool) (supply : List Nat) :
    cmdrRun T0 (f + 1) ⟨.idle, c, t, r⟩ (some x) supply =
      cmdrRun T0 f ⟨.wait, 0, T0, true⟩ (some x) supply := by
  simp [cmdrRun, cmdrStep]

/-- Unfolding: the `TIMEOUT` state emits the single terminal item and, with
the downstream ready, returns to `IDLE`. -/
theorem cmdrRun_timeout_step (T0 f c t : Nat) (r : Bool)
    (req : Option (Nat × Bool)) (supply : List Nat) :
    cmdrRun T0 (f + 1) ⟨.timeout, c, t, r⟩ req supply =
      (⟨0, .timeout, true⟩ :: (cmdrRun T0 f ⟨.idle, c, t, r⟩ req supply).1,
       (cmdrRun T0 f ⟨.idle, c, t, r⟩ req supply).2) := by
  simp [cmdrRun, cmdrStep]

/-- With no reader byte ever arriving, `WAIT` counts the timeout down to
zero, consumes the request, and the `TIMEOUT` state emits the single
terminal item. -/
theorem cmdrRun_wait_timeout (T0 len : Nat) (lst : Bool) :
    ∀ (t c f : Nat) (r : Bool),
      (cmdrRun T0 (f + t + 3) ⟨.wait, c, t, r⟩ (some (len, lst)) []).1 =
        [⟨0, .timeout, true⟩] := by
  intro t
  induction t with
  | zero =>
      intro c f r
      have h : f + 0 + 3 = ((f + 1) + 1) + 1 := by omega
      rw [h, cmdrRun_wait_step]
      simp [cmdrRun_timeout_step, cmdrRun_idle_none]
  | succ t ih =>
      intro c f r
      have h : f + (t + 1) + 3 = (f + t + 3) + 1 := by omega
      rw [h, cmdrRun_wait_step]
      simp only [Nat.succ_ne_zero, if_false, List.isEmpty_nil, if_true,
        Nat.add_sub_cancel]
      exact ih c f false

/-- Claim C3: when the embedded reader never signals a start (no response
start condition), the command reader's result stream for the accepted
request is exactly one `status=TIMEOUT, last=1` item and no data bytes: the
timeout counter is reloaded on acceptance (`IDLE`) and counted down to zero
in `WAIT`. -/
theorem cmdr_timeout_single_result (T0 len : Nat) (lst : Bool)
    (c0 t0 : Nat) (r0 : Bool) (f : Nat) :
    (cmdrRun T0 (f + T0 + 4) ⟨.idle, c0, t0, r0⟩ (some (len, lst)) []).1 =
      [⟨0, .timeout, true⟩] := by
  have h : f + T0 + 4 = (f + T0 + 3) + 1 := by omega
  rw [h, cmdrRun_idle_accept]
  exact cmdrRun_wait_timeout T0 len lst T0 0 f true

/-- Unfolding: a `CMD` cycle on a non-final byte (counter below the
threshold) emits an `OK, last=0` item and advances the byte counter. -/
theorem cmdrRun_cmd_mid (T0 f c t len : Nat) (lst r : Bool) (b : Nat)
    (bs : List Nat) (ht : t ≠ 0) (hc : c ≠ (len + 255) % 256) :
    cmdrRun T0 (f + 1) ⟨.cmd, c, t, r⟩ (some (len, lst)) (b :: bs) =
      ((⟨b, .ok, false⟩ : SdItem) ::
        (cmdrRun T0 f ⟨.cmd, (c + 1) % 256, t - 1, r⟩ (some (len, lst)) bs).1,
       (cmdrRun T0 f ⟨.cmd, (c + 1) % 256, t - 1, r⟩ (some (len, lst)) bs).2)
    := by
  simp [cmdrRun, cmdrStep, ht, hc]

/-- Unfolding: a `CMD` cycle on the final byte of a non-`last` request emits
an `OK, last=1` item, consumes the request and returns to `IDLE`. -/
theorem cmdrRun_cmd_last (T0 f c t len : Nat) (r : Bool) (b : Nat)
    (bs : List Nat) (ht : t ≠ 0) (hc : c = (len + 255) % 256) :
    cmdrRun T0 (f + 1) ⟨.cmd, c, t, r⟩ (some (len, false)) (b :: bs) =
      ((⟨b, .ok, true⟩ : SdItem) ::
        (cmdrRun T0 f ⟨.idle, (c + 1) % 256, t - 1, r⟩ none bs).1,
       (cmdrRun T0 f ⟨.idle, (c + 1) % 256, t - 1, r⟩ none bs).2) := by
  simp [cmdrRun, cmdrStep, ht, hc]

/-- The `CMD` loop: with the timeout budget covering the transfer, the items
emitted for the supplied bytes are exactly `okItemsMod` with threshold
`(len + 255) % 256` — one `OK` item per byte, `last` once the 8-bit counter
hits the threshold. -/
theorem cmdrRun_cmd_loop (T0 len : Nat) :
    ∀ (bs : List Nat) (c t f : Nat) (r : Bool), bs ≠ [] →
      c + bs.length = (len + 255) % 256 + 1 →
      bs.length ≤ t → bs.length + 1 ≤ f →
      (cmdrRun T0 f ⟨.cmd, c, t, r⟩ (some (len, false)) bs).1 =
        okItemsMod 256 ((len + 255) % 256) c bs := by
  intro bs
  induction bs with
  | nil => intro c t f r hne; exact absurd rfl hne
  | cons b bs ih =>
      intro c t f r _ hcount ht hf
      have hm : (len + 255) % 256 < 256 := Nat.mod_lt _ (by omega)
      obtain ⟨f', rfl⟩ : ∃ f', f = f' + 1 := ⟨f - 1, by omega⟩
      simp only [List.length_cons] at hcount ht hf
      cases bs with
      | nil =>
          simp only [List.length_nil] at hcount ht hf
          have hc : c = (len + 255) % 256 := by omega
          rw [cmdrRun_cmd_last T0 f' c t len r b [] (by omega) hc]
          rw [cmdrRun_idle_none T0 f' _ _ rfl]
          simp [okItemsMod, hc]
      | cons b' bs' =>
          simp only [List.length_cons] at hcount ht hf
          have hc : c ≠ (len + 255) % 256 := by omega
          have hmod : (c + 1) % 256 = c + 1 := Nat.mod_eq_of_lt (by omega)
          have h1 : (c + 1) % 256 + (b' :: bs').length = (len + 255) % 256 + 1
            := by simp only [List.length_cons]; omega
          have h2 : (b' :: bs').length ≤ t - 1 := by
            simp only [List.length_cons]; omega
          have h3 : (b' :: bs').length + 1 ≤ f' := by
            simp only [List.length_cons]; omega
          rw [cmdrRun_cmd_mid T0 f' c t len false r b (b' :: bs')
            (by omega) hc]
          show (⟨b, .ok, false⟩ : SdItem) :: _ = _
          rw [ih ((c + 1) % 256) (t - 1) f' r (by simp) h1 h2 h3]
          conv_rhs => rw [okItemsMod]
          rw [if_neg hc]

/-- Shape of an OK transfer's items when the byte counter starts below the
threshold and the supply is sized to reach it exactly: the data are the
supplied bytes, every status is `OK`, and `last` is set on the final item
only. -/
theorem okItemsMod_shape (M m : Nat) :
    ∀ (bs : List Nat) (c : Nat), bs ≠ [] → c + bs.length = m + 1 → m < M →
      (okItemsMod M m c bs).map SdItem.data = bs ∧
      (okItemsMod M m c bs).map SdItem.last =
        List.replicate (bs.length - 1) false ++ [true] ∧
      ∀ it ∈ okItemsMod M m c bs, it.status = .ok := by
  intro bs
  induction bs with
  | nil => intro c hne; exact absurd rfl hne
  | cons b bs ih =>
      intro c _ hcount hM
      simp only [List.length_cons] at hcount
      cases bs with
      | nil =>
          have hc : c = m := by simp only [List.length_nil] at hcount; omega
          simp [okItemsMod, hc]
      | cons b' bs' =>
          simp only [List.length_cons] at hcount
          have hc : c ≠ m := by omega
          have hmod : (c + 1) % M = c + 1 := Nat.mod_eq_of_lt (by omega)
          have h1 : (c + 1) % M + (b' :: bs').length = m + 1 := by
            simp only [List.length_cons]; omega
          obtain ⟨ihd, ihl, ihs⟩ := ih ((c + 1) % M) (by simp) h1 hM
          refine ⟨?_, ?_, ?_⟩
          · rw [okItemsMod, if_neg hc]
            simp only [List.map_cons, ihd]
          · rw [okItemsMod, if_neg hc]
            simp only [List.map_cons, ihl, List.length_cons]
            simp [List.replicate_succ]
          · intro it hit
            rw [okItemsMod, if_neg hc] at hit
            rcases List.mem_cons.mp hit with h | h
            · rw [h]
            · exact ihs it h

/-- Claim C10: a command-read request with `length = 0` does not finish with
zero data bytes — `sink.length - 1` wraps to 255 at the 8-bit width of the
comparison, so, with the card supplying bytes within the timeout budget,
`last` is asserted exactly on the 256th `OK` byte. -/
theorem cmdr_zero_length_wrap (T0 f c0 t0 : Nat) (r0 : Bool) (bs : List Nat)
    (hbs : bs.length = 256) (hT : 257 ≤ T0) (hf : 259 ≤ f) :
    (cmdrRun T0 f ⟨.idle, c0, t0, r0⟩ (some (0, false)) bs).1.map
        SdItem.data = bs ∧
    (cmdrRun T0 f ⟨.idle, c0, t0, r0⟩ (some (0, false)) bs).1.map
        SdItem.last = List.replicate 255 false ++ [true] ∧
    ∀ it ∈ (cmdrRun T0 f ⟨.idle, c0, t0, r0⟩ (some (0, false)) bs).1,
      it.status = .ok := by
  obtain ⟨f', rfl⟩ : ∃ f', f = f' + 2 := ⟨f - 2, by omega⟩
  have hne : bs ≠ [] := by
    intro h; rw [h] at hbs; simp at hbs
  obtain ⟨b, bs', rfl⟩ : ∃ b bs', bs = b :: bs' := by
    cases bs with
    | nil => exact absurd rfl hne
    | cons b bs' => exact ⟨b, bs', rfl⟩
  have hstep : (f' + 1) + 1 = f' + 2 := by omega
  rw [← hstep, cmdrRun_idle_accept, cmdrRun_wait_step]
  have hT0 : ¬ T0 = 0 := by omega
  simp only [if_neg hT0, List.isEmpty_cons, Bool.false_eq_true, if_false]
  have hloop := cmdrRun_cmd_loop T0 0 (b :: bs') 0 (T0 - 1) f' false
    hne (by simpa using hbs) (by omega) (by omega)
  rw [hloop]
  have hshape := okItemsMod_shape 256 ((0 + 255) % 256) (b :: bs') 0 hne
    (by simpa using hbs) (by omega)
  rw [hbs] at hshape
  exact ⟨hshape.1, hshape.2.1, hshape.2.2⟩

/-- Witness: `cmdr_zero_length_wrap` applied to a concrete zero-length
request served with 256 zero bytes. -/
theorem cmdr_zero_length_wrap_witness :
    (cmdrRun 257 259 ⟨.idle, 0, 0, false⟩ (some (0, false))
        (List.replicate 256 0)).1.map SdItem.data = List.replicate 256 0 ∧
    (cmdrRun 257 259 ⟨.idle, 0, 0, false⟩ (some (0, false))
        (List.replicate 256 0)).1.map SdItem.last =
      List.replicate 255 false ++ [true] ∧
    ∀ it ∈ (cmdrRun 257 259 ⟨.idle, 0, 0, false⟩ (some (0, false))
        (List.replicate 256 0)).1, it.status = .ok :=
  cmdr_zero_length_wrap 257 259 0 0 false (List.replicate 256 0)
    (List.length_replicate 256 0) (by omega) (by omega)

/-- Packing the MSB-first bits of a byte below 256 recovers the byte. -/
theorem pack8_bitsMSB (b : Nat) (l : List Nat) (hb : b < 256) :
    pack8 (bitsMSB b ++ l) = b :: pack8 l := by
  simp only [bitsMSB, List.cons_append, List.nil_append, pack8,
    List.cons.injEq, and_true]
  constructor
  · omega
  · rfl

/-- Packing a whole payload's serialization recovers the payload. -/
theorem pack8_flatten (payload : List Nat) (hb : ∀ b ∈ payload, b < 256) :
    pack8 ((payload.map bitsMSB).flatten) = payload := by
  induction payload with
  | nil => rfl
  | cons d rest ih =>
      simp only [List.map_cons, List.flatten_cons]
      rw [pack8_bitsMSB d _ (hb d (by simp))]
      rw [ih fun b h => hb b (by simp [h])]

/-- Idle-high line cycles before the first driven bit are skipped by the
start detection. -/
theorem dropWhile_replicate_one (k : Nat) (l : List Nat) :
    (List.replicate k 1 ++ l).dropWhile (fun b => b != 0) =
      l.dropWhile (fun b => b != 0) := by
  induction k with
  | zero => simp
  | succ k ih => simp [List.replicate_succ, List.dropWhile_cons, ih]

/-- Looping the command writer's driven bits (after any number of idle-high
line cycles) back into a 1-bit `SDPHYR` recovers the written bytes, provided
the first byte carries the `0` start bit in its MSB. -/
theorem sdphyrBytes_writer (payload : List Nat) (k : Nat)
    (hne : payload ≠ []) (hb : ∀ b ∈ payload, b < 256)
    (hstart : payload.headI / 128 % 2 = 0) :
    sdphyrBytes (List.replicate k 1 ++ cmdwDriven payload) = payload := by
  unfold sdphyrBytes
  rw [cmdwDriven_eq, dropWhile_replicate_one]
  obtain ⟨d, rest, rfl⟩ : ∃ d rest, payload = d :: rest := by
    cases payload with
    | nil => exact absurd rfl hne
    | cons d rest => exact ⟨d, rest, rfl⟩
  simp only [List.headI] at hstart
  have hdrop :
      ((bitsMSB d ++ (rest.map bitsMSB).flatten).dropWhile
        (fun b => b != 0)) = bitsMSB d ++ (rest.map bitsMSB).flatten := by
    simp only [bitsMSB, List.cons_append]
    rw [List.dropWhile_cons]
    simp [hstart]
  simp only [List.map_cons, List.flatten_cons, hdrop]
  rw [pack8_bitsMSB d _ (hb d (by simp))]
  rw [pack8_flatten rest fun b h => hb b (by simp [h])]

/-- Claim C8: the round trip — the command writer's driven command-line
bits, deserialized by the command reader's embedded 1-bit `SDPHYR` and
framed by a read request of matching length, reproduce the original bytes
with status `OK` (and `last` on the final byte). -/
theorem cmdw_cmdr_roundtrip (payload : List Nat) (k T0 f c0 t0 : Nat)
    (r0 : Bool) (hne : payload ≠ []) (hb : ∀ b ∈ payload, b < 256)
    (hlen : payload.length ≤ 255) (hstart : payload.headI / 128 % 2 = 0)
    (hT : payload.length + 2 ≤ T0) (hf : payload.length + 3 ≤ f) :
    (cmdrRun T0 f ⟨.idle, c0, t0, r0⟩ (some (payload.length, false))
        (sdphyrBytes (List.replicate k 1 ++ cmdwDriven payload))).1.map
        SdItem.data = payload ∧
    (cmdrRun T0 f ⟨.idle, c0, t0, r0⟩ (some (payload.length, false))
        (sdphyrBytes (List.replicate k 1 ++ cmdwDriven payload))).1.map
        SdItem.last = List.replicate (payload.length - 1) false ++ [true] ∧
    ∀ it ∈ (cmdrRun T0 f ⟨.idle, c0, t0, r0⟩ (some (payload.length, false))
        (sdphyrBytes (List.replicate k 1 ++ cmdwDriven payload))).1,
      it.status = .ok := by
  rw [sdphyrBytes_writer payload k hne hb hstart]
  have hlen1 : 1 ≤ payload.length := List.length_pos.mpr hne
  obtain ⟨d, rest, rfl⟩ : ∃ d rest, payload = d :: rest := by
    cases payload with
    | nil => exact absurd rfl hne
    | cons d rest => exact ⟨d, rest, rfl⟩
  obtain ⟨f', rfl⟩ : ∃ f', f = f' + 2 := ⟨f - 2, by omega⟩
  have hstep : (f' + 1) + 1 = f' + 2 := by omega
  rw [← hstep, cmdrRun_idle_accept, cmdrRun_wait_step]
  have hT0 : ¬ T0 = 0 := by omega
  simp only [if_neg hT0, List.isEmpty_cons, Bool.false_eq_true, if_false]
  rw [cmdrRun_cmd_loop T0 (d :: rest).length (d :: rest) 0 (T0 - 1) f' false
    hne (by omega) (by omega) (by omega)]
  exact okItemsMod_shape 256 (((d :: rest).length + 255) % 256) (d :: rest) 0
    hne (by omega) (by omega)

/-- Witness: the round trip for the concrete payload `[0x40, 0x00]` after
three idle-high line cycles. -/
theorem cmdw_cmdr_roundtrip_witness :
    (cmdrRun 10 10 ⟨.idle, 0, 0, false⟩ (some (2, false))
        (sdphyrBytes (List.replicate 3 1 ++ cmdwDriven [64, 0]))).1.map
        SdItem.data = [64, 0] ∧
    (cmdrRun 10 10 ⟨.idle, 0, 0, false⟩ (some (2, false))
        (sdphyrBytes (List.replicate 3 1 ++ cmdwDriven [64, 0]))).1.map
        SdItem.last = List.replicate 1 false ++ [true] ∧
    ∀ it ∈ (cmdrRun 10 10 ⟨.idle, 0, 0, false⟩ (some (2, false))
        (sdphyrBytes (List.replicate 3 1 ++ cmdwDriven [64, 0]))).1,
      it.status = .ok :=
  cmdw_cmdr_roundtrip [64, 0] 3 10 10 0 0 false (by decide) (by decide)
    (by decide) (by decide) (by decide) (by decide)

/-- Once back in `IDLE` with the request consumed, the data reader emits
nothing further. -/
theorem datarRun_idle_none (T0 f : Nat) (s : DatarState) (supply : List Nat)
    (h : s.fsm = .idle) :
    datarRun T0 f s none supply = ([], s) := by
  cases f <;> simp [datarRun, h]

/-- Observation of a data-read transaction stops on entry to `CLK40`. -/
theorem datarRun_clk40_stop (T0 f : Nat) (s : DatarState)
    (req : Option (Nat × Bool)) (supply : List Nat) (h : s.fsm = .clk40) :
    datarRun T0 f s req supply = ([], s) := by
  cases f <;> simp [datarRun, h]

/-- Unfolding: an `IDLE` cycle with a pending block request reloads the
timeout, clears the byte counter, arms the reader and moves to `WAIT`. -/
theorem datarRun_idle_accept (T0 f c t : Nat) (r : Bool) (x : Nat × Bool)
    (supply : List Nat) :
    datarRun T0 (f + 1) ⟨.idle, c, t, r⟩ (some x) supply =
      datarRun T0 f ⟨.wait, 0, T0, true⟩ (some x) supply := by
  simp [datarRun, datarStep]

/-- Unfolding: a `WAIT` cycle of the data reader. -/
theorem datarRun_wait_step (T0 f c t : Nat) (r : Bool) (len : Nat)
    (lst : Bool) (supply : List Nat) :
    datarRun T0 (f + 1) ⟨.wait, c, t, r⟩ (some (len, lst)) supply =
      if t = 0 then
        datarRun T0 f ⟨.timeout, c, 2 ^ 32 - 1, false⟩ none supply
      else if supply.isEmpty then
        datarRun T0 f ⟨.wait, c, t - 1, false⟩ (some (len, lst)) supply
      else
        datarRun T0 f ⟨.data, c, t - 1, false⟩ (some (len, lst)) supply := by
  by_cases ht : t = 0 <;> by_cases hs : supply.isEmpty = true <;>
    simp [datarRun, datarStep, ht, hs]

/-- Unfolding: a `DATA` cycle on a non-final byte. -/
theorem datarRun_data_mid (T0 f c t N : Nat) (lst r : Bool) (b : Nat)
    (bs : List Nat) (ht : t ≠ 0) (hc : c ≠ (N + 7) % 1024) :
    datarRun T0 (f + 1) ⟨.data, c, t, r⟩ (some (N, lst)) (b :: bs) =
      ((⟨b, .ok, false⟩ : SdItem) ::
        (datarRun T0 f ⟨.data, (c + 1) % 1024, t - 1, r⟩ (some (N, lst))
          bs).1,
       (datarRun T0 f ⟨.data, (c + 1) % 1024, t - 1, r⟩ (some (N, lst))
          bs).2) := by
  simp [datarRun, datarStep, ht, hc]

/-- Unfolding: the final `DATA` cycle of a non-`last` request returns to
`IDLE`. -/
theorem datarRun_data_last_idle (T0 f c t N : Nat) (r : Bool) (b : Nat)
    (bs : List Nat) (ht : t ≠ 0) (hc : c = (N + 7) % 1024) :
    datarRun T0 (f + 1) ⟨.data, c, t, r⟩ (some (N, false)) (b :: bs) =
      ((⟨b, .ok, true⟩ : SdItem) ::
        (datarRun T0 f ⟨.idle, (c + 1) % 1024, t - 1, r⟩ none bs).1,
       (datarRun T0 f ⟨.idle, (c + 1) % 1024, t - 1, r⟩ none bs).2) := by
  simp [datarRun, datarStep, ht, hc]

/-- Unfolding: the final `DATA` cycle of a `last` request moves to `CLK40`
with the byte counter cleared, where observation stops. -/
theorem datarRun_data_last_clk40 (T0 f c t N : Nat) (r : Bool) (b : Nat)
    (bs : List Nat) (ht : t ≠ 0) (hc : c = (N + 7) % 1024) :
    datarRun T0 (f + 1) ⟨.data, c, t, r⟩ (some (N, true)) (b :: bs) =
      ([⟨b, .ok, true⟩], ⟨.clk40, 0, t - 1, r⟩) := by
  have h := datarRun_clk40_stop T0 f ⟨.clk40, 0, t - 1, r⟩ none bs rfl
  simp [datarRun, datarStep, ht, hc, h]

/-- The `DATA` loop: one `OK` item per supplied byte with `last` at the
10-bit threshold `(N + 7) % 1024`, ending in `CLK40` for a `last` request
and back in `IDLE` otherwise. -/
theorem datarRun_data_loop (T0 N : Nat) (lst : Bool) :
    ∀ (bs : List Nat) (c t f : Nat) (r : Bool), bs ≠ [] →
      c + bs.length = (N + 7) % 1024 + 1 →
      bs.length ≤ t → bs.length + 1 ≤ f →
      datarRun T0 f ⟨.data, c, t, r⟩ (some (N, lst)) bs =
        (okItemsMod 1024 ((N + 7) % 1024) c bs,
         if lst then ⟨.clk40, 0, t - bs.length, r⟩
         else ⟨.idle, ((N + 7) % 1024 + 1) % 1024, t - bs.length, r⟩) := by
  intro bs
  induction bs with
  | nil => intro c t f r hne; exact absurd rfl hne
  | cons b bs ih =>
      intro c t f r _ hcount ht hf
      have hm : (N + 7) % 1024 < 1024 := Nat.mod_lt _ (by omega)
      obtain ⟨f', rfl⟩ : ∃ f', f = f' + 1 := ⟨f - 1, by omega⟩
      simp only [List.length_cons] at hcount ht hf
      cases bs with
      | nil =>
          simp only [List.length_nil] at hcount ht hf
          have hc : c = (N + 7) % 1024 := by omega
          cases lst with
          | false =>
              rw [datarRun_data_last_idle T0 f' c t N r b [] (by omega) hc]
              rw [datarRun_idle_none T0 f' _ _ rfl]
              simp [okItemsMod, hc]
          | true =>
              rw [datarRun_data_last_clk40 T0 f' c t N r b [] (by omega) hc]
              simp [okItemsMod, hc]
      | cons b' bs' =>
          simp only [List.length_cons] at hcount ht hf
          have hc : c ≠ (N + 7) % 1024 := by omega
          have hmod : (c + 1) % 1024 = c + 1 := Nat.mod_eq_of_lt (by omega)
          have h1 : (c + 1) % 1024 + (b' :: bs').length = (N + 7) % 1024 + 1
            := by simp only [List.length_cons]; omega
          have h2 : (b' :: bs').length ≤ t - 1 := by
            simp only [List.length_cons]; omega
          have h3 : (b' :: bs').length + 1 ≤ f' := by
            simp only [List.length_cons]; omega
          rw [datarRun_data_mid T0 f' c t N lst r b (b' :: bs')
            (by omega) hc]
          rw [ih ((c + 1) % 1024) (t - 1) f' r (by simp) h1 h2 h3]
          have hfin : t - 1 - (b' :: bs').length = t - (b :: b' :: bs').length
            := by simp only [List.length_cons]; omega
          refine Prod.ext ?_ ?_
          · show (⟨b, .ok, false⟩ : SdItem) :: _ = _
            conv_rhs => rw [okItemsMod]
            rw [if_neg hc]
          · show (if lst then _ else _) = _
            rw [hfin]

set_option maxRecDepth 4000 in
/-- From entry to `CLK40`, forty consecutive cycles all drive the line clock
and the 41st state is `IDLE`: the fixed trailer of a `last` block read. -/
theorem datarQuiet_clk40 (T0 t : Nat) (r : Bool) :
    (datarQuiet T0 40 ⟨.clk40, 0, t, r⟩).1 = ⟨.idle, 40, t, r⟩ ∧
    ∀ o ∈ (datarQuiet T0 40 ⟨.clk40, 0, t, r⟩).2, o.clk = true := by
  simp [datarQuiet, datarStep]

/-- Claim C2 (amended: block length at most 1016): a data-read request of
block length `N` served by a correctly framed response of `N + 8` bytes
within the timeout yields exactly `N + 8` `OK` items with `last` only on the
final one; the machine then enters `CLK40` — 40 trailing clock cycles before
`IDLE` — exactly when the request was marked `last`, and returns directly to
`IDLE` otherwise.  For `N ≥ 1017` the 10-bit threshold `(N + 8 - 1) % 1024`
wraps below the counter and the claimed item count is wrong. -/
theorem datar_block_read (T0 N f c0 t0 : Nat) (r0 lst : Bool)
    (bs : List Nat) (hN : N ≤ 1016) (hlen : bs.length = N + 8)
    (hT : N + 10 ≤ T0) (hf : N + 11 ≤ f) :
    (datarRun T0 f ⟨.idle, c0, t0, r0⟩ (some (N, lst)) bs).1.map
        SdItem.data = bs ∧
    (datarRun T0 f ⟨.idle, c0, t0, r0⟩ (some (N, lst)) bs).1.length =
      N + 8 ∧
    (datarRun T0 f ⟨.idle, c0, t0, r0⟩ (some (N, lst)) bs).1.map
        SdItem.last = List.replicate (N + 7) false ++ [true] ∧
    (∀ it ∈ (datarRun T0 f ⟨.idle, c0, t0, r0⟩ (some (N, lst)) bs).1,
      it.status = .ok) ∧
    (datarRun T0 f ⟨.idle, c0, t0, r0⟩ (some (N, lst)) bs).2.fsm =
      (if lst then DatarFsm.clk40 else DatarFsm.idle) ∧
    ∀ t', (datarQuiet T0 40 ⟨.clk40, 0, t', false⟩).1.fsm = .idle ∧
      ∀ o ∈ (datarQuiet T0 40 ⟨.clk40, 0, t', false⟩).2, o.clk = true := by
  have hne : bs ≠ [] := by
    intro h; rw [h] at hlen; simp at hlen
  have hm : (N + 7) % 1024 = N + 7 := Nat.mod_eq_of_lt (by omega)
  obtain ⟨f', rfl⟩ : ∃ f', f = f' + 2 := ⟨f - 2, by omega⟩
  have hstep : (f' + 1) + 1 = f' + 2 := by omega
  rw [← hstep, datarRun_idle_accept, datarRun_wait_step]
  have hT0 : ¬ T0 = 0 := by omega
  obtain ⟨b, bs', rfl⟩ : ∃ b bs', bs = b :: bs' := by
    cases bs with
    | nil => exact absurd rfl hne
    | cons b bs' => exact ⟨b, bs', rfl⟩
  simp only [if_neg hT0, List.isEmpty_cons, Bool.false_eq_true, if_false]
  rw [datarRun_data_loop T0 N lst (b :: bs') 0 (T0 - 1) f' false hne
    (by omega) (by omega) (by omega)]
  obtain ⟨hd, hl, hs⟩ := okItemsMod_shape 1024 ((N + 7) % 1024) (b :: bs') 0
    hne (by omega) (by omega)
  refine ⟨hd, ?_, ?_, hs, ?_, ?_⟩
  · have := congrArg List.length hd
    simpa [hlen] using this
  · rw [hl, hlen]
    have h78 : N + 8 - 1 = N + 7 := by omega
    rw [h78]
  · cases lst <;> simp
  · intro t'
    obtain ⟨hq1, hq2⟩ := datarQuiet_clk40 T0 t' false
    exact ⟨by rw [hq1], hq2⟩

/-- Counterexample to claim C2 as stated for every `N`: at block length
`N = 1017` the threshold `(1017 + 8 - 1) % 1024 = 0` is hit by the very
first byte, so the transfer yields a single item with `last = 1` instead of
the claimed `1025` items with `last` only on the final one. -/
theorem datar_block_read_cex :
    (datarRun 50 10 ⟨.idle, 0, 0, false⟩ (some (1017, false))
        (List.replicate 1025 0)).1 = [⟨0, .ok, true⟩] ∧
    ¬ (datarRun 50 10 ⟨.idle, 0, 0, false⟩ (some (1017, false))
        (List.replicate 1025 0)).1.length = 1017 + 8 := by
  constructor
  · decide
  · decide

/-- Witness: `datar_block_read` at block length 4 with a 12-byte framed
response and a `last` request. -/
theorem datar_block_read_witness :
    (datarRun 20 20 ⟨.idle, 0, 0, false⟩ (some (4, true))
        (List.replicate 12 7)).1.map SdItem.data = List.replicate 12 7 ∧
    (datarRun 20 20 ⟨.idle, 0, 0, false⟩ (some (4, true))
        (List.replicate 12 7)).1.length = 4 + 8 ∧
    (datarRun 20 20 ⟨.idle, 0, 0, false⟩ (some (4, true))
        (List.replicate 12 7)).1.map SdItem.last =
      List.replicate 11 false ++ [true] ∧
    (∀ it ∈ (datarRun 20 20 ⟨.idle, 0, 0, false⟩ (some (4, true))
        (List.replicate 12 7)).1, it.status = .ok) ∧
    (datarRun 20 20 ⟨.idle, 0, 0, false⟩ (some (4, true))
        (List.replicate 12 7)).2.fsm = (if true then DatarFsm.clk40
          else DatarFsm.idle) ∧
    ∀ t', (datarQuiet 20 40 ⟨.clk40, 0, t', false⟩).1.fsm = .idle ∧
      ∀ o ∈ (datarQuiet 20 40 ⟨.clk40, 0, t', false⟩).2, o.clk = true :=
  datar_block_read 20 4 20 0 0 false true (List.replicate 12 7) (by omega)
    (List.length_replicate 12 7) (by omega) (by omega)

/-- Claim C4: any result item a reader emits with `status = TIMEOUT` has
`last = 1` — in both the command reader and the data reader, every cycle
whose source is valid with timeout status also asserts `last` (the `CMD` /
`DATA` states always drive `status = OK`, and the `TIMEOUT` states drive
`last = 1`). -/
theorem timeout_status_implies_last (T0c T0d : Nat) (s : CmdrState)
    (sv : Bool) (sl : Nat) (sla cd rv : Bool) (rd : Nat) (sr : Bool)
    (s' : DatarState) (dv : Bool) (bl : Nat) (dl drv : Bool) (drd : Nat)
    (dsr : Bool) :
    ((cmdrStep T0c s sv sl sla cd rv rd sr).2.srcValid = true →
      (cmdrStep T0c s sv sl sla cd rv rd sr).2.srcStatus = .timeout →
      (cmdrStep T0c s sv sl sla cd rv rd sr).2.srcLast = true) ∧
    ((datarStep T0d s' dv bl dl drv drd dsr).2.srcValid = true →
      (datarStep T0d s' dv bl dl drv drd dsr).2.srcStatus = .timeout →
      (datarStep T0d s' dv bl dl drv drd dsr).2.srcLast = true) := by
  constructor
  · cases h : s.fsm <;> simp [cmdrStep, h]
  · cases h : s'.fsm <;> simp [datarStep, h]

/-- Witness: `timeout_status_implies_last` applied in the `TIMEOUT` states,
where a valid timeout item is being emitted. -/
theorem timeout_status_implies_last_witness :
    (cmdrStep 5 ⟨.timeout, 0, 0, false⟩ true 0 false true false 0
      true).2.srcLast = true ∧
    (datarStep 5 ⟨.timeout, 0, 0, false⟩ true 0 false false 0
      true).2.srcLast = true :=
  ⟨(timeout_status_implies_last 5 5 ⟨.timeout, 0, 0, false⟩ true 0 false true
      false 0 true ⟨.timeout, 0, 0, false⟩ true 0 false false 0 true).1
    rfl rfl,
   (timeout_status_implies_last 5 5 ⟨.timeout, 0, 0, false⟩ true 0 false true
      false 0 true ⟨.timeout, 0, 0, false⟩ true 0 false false 0 true).2
    rfl rfl⟩

/-- Quiet `IDLE` cycles (no `start` pulse) produce no decision. -/
theorem crcrRun_idle_quiet (r : Bool) :
    ∀ m, crcrRun ⟨.idle, r⟩ (List.replicate m (false, false, 0)) = [] := by
  intro m
  induction m with
  | zero => rfl
  | succ m ih => simp [List.replicate_succ, crcrRun, crcrStep, ih]

/-- Armed and waiting, the decoder is silent until the reader's token
arrives, then decides once (`error` iff the token is `0b101`) and returns to
`IDLE`, where it stays silent. -/
theorem crcrRun_wait_quiet (j m t : Nat) :
    ∀ r : Bool,
      crcrRun ⟨.waitCheck, r⟩ (List.replicate j (false, false, 0) ++
          (false, true, t) :: List.replicate m (false, false, 0)) =
        (if t = 5 then [(false, true)] else [(true, false)]) := by
  induction j with
  | zero =>
      intro r
      by_cases h : t = 5 <;>
        simp [crcrRun, crcrStep, h, crcrRun_idle_quiet]
  | succ j ih =>
      intro r
      simp only [List.replicate_succ, List.cons_append, crcrRun, crcrStep]
      simp [ih false]

/-- Claim C6: a `start` pulse arms the embedded reader (`crcr.reset`
pulsed, `WAIT-CHECK` entered); whenever the reader's single token arrives —
after any number of waiting cycles — exactly one decision is emitted before
rearming: `error` if and only if the token equals `0b101`, `valid` for any
other value, never both. -/
theorem crcr_single_decision (j m t : Nat) :
    crcrRun ⟨.idle, false⟩
      ((true, false, 0) :: (List.replicate j (false, false, 0) ++
        (false, true, t) :: List.replicate m (false, false, 0))) =
      (if t = 5 then [(false, true)] else [(true, false)]) ∧
    (crcrStep ⟨.idle, false⟩ true false 0).1 = ⟨.waitCheck, true⟩ := by
  constructor
  · simp only [crcrRun, crcrStep]
    simp [crcrRun_wait_quiet j m t true]
  · rfl

/-- Claim C5 (amended): a divider value that is a power of two between 2 and
128 is mapped by the `Case` to counter bit `log2(divider) - 1`, so the line
clock toggles every `divider / 2` control cycles — its frequency is
`base_clock / divider`, not `base_clock / (2 * divider)`; divider 1, 0 and
every non-power-of-two fall to the default least-significant-bit tap; no
divider value is rejected. -/
theorem clocker_divider_mapping (v : Nat) :
    (∀ i, 1 ≤ i → i ≤ 7 → v = 2 ^ i →
      (∀ c, clockerClk v c = c / 2 ^ (i - 1) % 2) ∧
      ∀ t, clockerWave v (t + 2 ^ (i - 1)) = 1 - clockerWave v t) ∧
    ((∀ i, 1 ≤ i → i ≤ 7 → v ≠ 2 ^ i) → ∀ t, clockerWave v t = t % 2) := by
  constructor
  · intro i h1 h7 hv
    subst hv
    interval_cases i <;>
      exact ⟨fun c => rfl, fun t => by
        simp only [clockerWave, clockerClk]
        norm_num
        omega⟩
  · intro h t
    have h1 : ¬ v = 2 := by simpa using h 1 (by omega) (by omega)
    have h2 : ¬ v = 4 := by simpa using h 2 (by omega) (by omega)
    have h3 : ¬ v = 8 := by simpa using h 3 (by omega) (by omega)
    have h4 : ¬ v = 16 := by simpa using h 4 (by omega) (by omega)
    have h5 : ¬ v = 32 := by simpa using h 5 (by omega) (by omega)
    have h6 : ¬ v = 64 := by simpa using h 6 (by omega) (by omega)
    have h7 : ¬ v = 128 := by simpa using h 7 (by omega) (by omega)
    simp only [clockerWave, clockerClk, if_neg h1, if_neg h2, if_neg h3,
      if_neg h4, if_neg h5, if_neg h6, if_neg h7]
    omega

/-- Counterexample to claim C5 as stated: with divider 2 the output has the
same value 2 (= divider) cycles apart — it does *not* toggle at
`base / (2 * divider)`; it has already toggled after 1 (= divider / 2)
cycle. -/
theorem clocker_divider_cex :
    clockerWave 2 (0 + 2) = clockerWave 2 0 ∧
    clockerWave 2 (0 + 1) ≠ clockerWave 2 0 := by
  constructor
  · decide
  · decide

/-- Witness: `clocker_divider_mapping` at divider 4 — the output toggles
after `4 / 2 = 2` cycles. -/
theorem clocker_divider_witness :
    clockerWave 4 (0 + 2 ^ (2 - 1)) = 1 - clockerWave 4 0 :=
  ((clocker_divider_mapping 4).1 2 (by omega) (by omega) rfl).2 0

/-- At most one sample can be accepted per line cycle. -/
theorem sdphyrAcceptedAux_le (w : Nat) (skip : Bool) :
    ∀ (l : List Nat) (run : Bool),
      sdphyrAcceptedAux w skip run l ≤ l.length := by
  intro l
  induction l with
  | nil => intro run; simp [sdphyrAcceptedAux]
  | cons a l ih =>
      intro run
      simp only [sdphyrAcceptedAux, List.length_cons]
      have h1 := ih (run || sdphyrStartCond w a)
      have h2 : (if run = true then (1 : Nat) else 0) ≤ 1 := by
        split <;> omega
      have h3 : (if (run || sdphyrStartCond w a) = true then (1 : Nat)
          else 0) ≤ 1 := by split <;> omega
      have h4 : (if (if skip = true then run
          else run || sdphyrStartCond w a) = true then (1 : Nat) else 0) ≤ 1
        := by split <;> omega
      omega

/-- Cycles before the first start condition contribute no accepted
samples. -/
theorem sdphyrAcceptedAux_nonstart (w : Nat) (skip : Bool) :
    ∀ (l1 l2 : List Nat), (∀ a ∈ l1, sdphyrStartCond w a = false) →
      sdphyrAcceptedAux w skip false (l1 ++ l2) =
        sdphyrAcceptedAux w skip false l2 := by
  intro l1
  induction l1 with
  | nil => intro l2 _; rfl
  | cons a l1 ih =>
      intro l2 h
      have ha : sdphyrStartCond w a = false := h a (by simp)
      simp only [List.cons_append, sdphyrAcceptedAux, ha, Bool.false_or,
        Bool.or_false, List.append_eq]
      rw [ih l2 fun b hb => h b (by simp [hb])]
      cases skip <;> simp

/-- Claim C7 (amended: `8 / width`, not `width × 8`): for both line widths,
if no all-zero sample occurs in the first `s` cycles then no byte is
emitted before cycle `s + 8 / width` — a byte needs `8 / width` accepted
samples, and acceptance only begins at an all-zero (start) sample; in
particular, with no all-zero sample at all in the first `c` cycles, nothing
is accepted by cycle `c`. -/
theorem sdphyr_start_gating (w : Nat) (skip : Bool) (samples : List Nat)
    (hw : w = 1 ∨ w = 4) :
    (∀ s c, (∀ a ∈ samples.take s, sdphyrStartCond w a = false) →
      c < s + 8 / w → sdphyrEmitted w skip samples c = 0) ∧
    (∀ c, (∀ a ∈ samples.take c, sdphyrStartCond w a = false) →
      sdphyrAccepted w skip (samples.take c) = 0) := by
  have hacc : ∀ c, (∀ a ∈ samples.take c, sdphyrStartCond w a = false) →
      sdphyrAccepted w skip (samples.take c) = 0 := by
    intro c h
    have := sdphyrAcceptedAux_nonstart w skip (samples.take c) [] h
    simpa [sdphyrAccepted] using this
  refine ⟨?_, hacc⟩
  intro s c hpre hc
  unfold sdphyrEmitted sdphyrCompleted
  by_cases hcs : c - 1 ≤ s
  · have hsub : samples.take (c - 1) = (samples.take s).take (c - 1) := by
      rw [List.take_take, min_eq_left hcs]
    have h0 : sdphyrAccepted w skip (samples.take (c - 1)) = 0 := by
      apply hacc
      intro a ha
      apply hpre
      rw [hsub] at ha
      exact List.take_subset _ _ ha
    rw [h0]
    simp
  · have hsplit : samples.take (c - 1) =
        samples.take s ++ (samples.drop s).take (c - 1 - s) := by
      rw [← List.take_add]
      congr 1
      omega
    have hle : sdphyrAccepted w skip (samples.take (c - 1)) ≤ c - 1 - s := by
      rw [hsplit]
      unfold sdphyrAccepted
      rw [sdphyrAcceptedAux_nonstart w skip _ _ hpre]
      calc sdphyrAcceptedAux w skip false ((samples.drop s).take (c - 1 - s))
          ≤ ((samples.drop s).take (c - 1 - s)).length :=
            sdphyrAcceptedAux_le w skip _ false
        _ ≤ c - 1 - s := by
            rw [List.length_take]
            omega
    apply Nat.div_eq_of_lt
    rcases hw with rfl | rfl
    · simp only [Nat.div_one] at hc
      omega
    · have : c - 1 - s = 0 := by omega
      omega

/-- Counterexample to claim C7 as stated: at width 4 (the data-line reader,
start bit skipped), with the start condition met at cycle 0, a full byte is
already out at cycle 4 — far earlier than the claimed `width × 8 = 32`
line cycles. -/
theorem sdphyr_start_gating_cex :
    sdphyrStartCond 4 0 = true ∧
    sdphyrEmitted 4 true [0, 0, 0, 0, 0, 0, 0, 0] 4 = 1 ∧
    4 < 0 + 4 * 8 := by
  refine ⟨by decide, by decide, by decide⟩

/-- Witness: `sdphyr_start_gating` at width 4 with two idle (all-high)
samples before the start. -/
theorem sdphyr_start_gating_witness :
    sdphyrEmitted 4 true [15, 15, 0, 0, 0] 3 = 0 ∧
    sdphyrAccepted 4 true ([15, 15, 0, 0, 0].take 2) = 0 :=
  ⟨(sdphyr_start_gating 4 true [15, 15, 0, 0, 0] (Or.inr rfl)).1 2 3
      (by decide) (by decide),
   (sdphyr_start_gating 4 true [15, 15, 0, 0, 0] (Or.inr rfl)).2 2
      (by decide)⟩

/-- If each output-enable implies the corresponding activity flag, at most
one active engine means at most one asserted output-enable. -/
theorem count_true_mono : ∀ o1 o2 o3 o4 a1 a2 a3 a4 : Bool,
    (o1 = true → a1 = true) → (o2 = true → a2 = true) →
    (o3 = true → a3 = true) → (o4 = true → a4 = true) →
    [a1, a2, a3, a4].count true ≤ 1 → [o1, o2, o3, o4].count true ≤ 1 := by
  decide

/-- Claim C9 (amended): the shared pads are the OR-reduction of the five
submodules' drives, and each of the four protocol engines asserts an
output-enable only while active (mid-transaction or with a pending
request); hence whenever at most one engine is active — the one-transaction-
at-a-time operating discipline — at most one asserts output-enable.  In the
all-idle instant *zero* engines assert it, so "exactly one at every
instant" does not hold. -/
theorem phy_oe_arbitration (s : PhyState) (i : PhyIn) :
    ((phyPads s i).cmdOe =
        (initDrive s.ini :: engineDrives s i).any (·.cmdOe) ∧
      (phyPads s i).dataOe =
        (initDrive s.ini :: engineDrives s i).any (·.dataOe)) ∧
    (((cmdwDrive s.cw i.cwValid i.cwData).cmdOe ||
        (cmdwDrive s.cw i.cwValid i.cwData).dataOe) = true →
      ((s.cw.fsm != CmdwFsm.idle) || i.cwValid) = true) ∧
    (((cmdrDrive s.cr).cmdOe || (cmdrDrive s.cr).dataOe) = true →
      ((s.cr.fsm != CmdrFsm.idle) || i.crValid) = true) ∧
    (((datawDrive s.dw i.dwValid i.dwData).cmdOe ||
        (datawDrive s.dw i.dwValid i.dwData).dataOe) = true →
      ((s.dw.fsm != DatawFsm.idle) || i.dwValid) = true) ∧
    (((datarDrive s.dr i.drValid).cmdOe ||
        (datarDrive s.dr i.drValid).dataOe) = true →
      ((s.dr.fsm != DatarFsm.idle) || i.drValid) = true) ∧
    (activeCount s i ≤ 1 → oeCount s i ≤ 1) := by
  have hcw : ((cmdwDrive s.cw i.cwValid i.cwData).cmdOe ||
      (cmdwDrive s.cw i.cwValid i.cwData).dataOe) = true →
      ((s.cw.fsm != CmdwFsm.idle) || i.cwValid) = true := by
    cases h : s.cw.fsm <;> cases hv : i.cwValid <;>
      simp [cmdwDrive, cmdwStep, h, hv]
  have hcr : ((cmdrDrive s.cr).cmdOe || (cmdrDrive s.cr).dataOe) = true →
      ((s.cr.fsm != CmdrFsm.idle) || i.crValid) = true := by
    cases h : s.cr.fsm <;> simp [cmdrDrive, cmdrStep, h]
  have hdw : ((datawDrive s.dw i.dwValid i.dwData).cmdOe ||
      (datawDrive s.dw i.dwValid i.dwData).dataOe) = true →
      ((s.dw.fsm != DatawFsm.idle) || i.dwValid) = true := by
    cases h : s.dw.fsm <;> cases hv : i.dwValid <;>
      simp [datawDrive, datawStep, h, hv]
  have hdr : ((datarDrive s.dr i.drValid).cmdOe ||
      (datarDrive s.dr i.drValid).dataOe) = true →
      ((s.dr.fsm != DatarFsm.idle) || i.drValid) = true := by
    cases h : s.dr.fsm <;> simp [datarDrive, datarStep, h]
  refine ⟨⟨rfl, rfl⟩, hcw, hcr, hdw, hdr, ?_⟩
  intro hact
  have := count_true_mono
    ((cmdwDrive s.cw i.cwValid i.cwData).cmdOe ||
      (cmdwDrive s.cw i.cwValid i.cwData).dataOe)
    ((cmdrDrive s.cr).cmdOe || (cmdrDrive s.cr).dataOe)
    ((datawDrive s.dw i.dwValid i.dwData).cmdOe ||
      (datawDrive s.dw i.dwValid i.dwData).dataOe)
    ((datarDrive s.dr i.drValid).cmdOe || (datarDrive s.dr i.drValid).dataOe)
    ((s.cw.fsm != CmdwFsm.idle) || i.cwValid)
    ((s.cr.fsm != CmdrFsm.idle) || i.crValid)
    ((s.dw.fsm != DatawFsm.idle) || i.dwValid)
    ((s.dr.fsm != DatarFsm.idle) || i.drValid)
    hcw hcr hdw hdr
  unfold activeCount activeFlags at hact
  unfold oeCount engineDrives
  simpa using this hact

/-- Counterexample to claim C9 as stated: in the reset (all-idle) instant
*no* engine asserts an output-enable, and one cycle after the controller
offers a command byte and a data byte simultaneously, *two* engines (the
command writer in `WRITE` and the data writer in `START`) assert one — in
neither reachable instant does exactly one engine drive. -/
theorem phy_oe_arbitration_cex :
    oeCount (phyReset 9 9) quietIn = 0 ∧
    oeCount (phyStep 9 9 (phyReset 9 9) busyIn) busyIn = 2 := by
  refine ⟨by decide, by decide⟩

/-- Witness: `phy_oe_arbitration` at the reset state under quiet inputs. -/
theorem phy_oe_arbitration_witness :
    oeCount (phyReset 9 9) quietIn ≤ 1 :=
  (phy_oe_arbitration (phyReset 9 9) quietIn).2.2.2.2.2 (by decide)
